import Mathlib

/-!
Verification of the Sound-Equalizer core (`python-equalizer/audio_processor.py`
and `python-equalizer/equalizer.py`) against its design specification.

The numeric model works over `ℝ`: NumPy float arrays become `List ℝ`, and
"within floating tolerance" statements become exact real equalities.  Python
calls that raise (out-of-range indexing, reductions over empty arrays, NumPy
broadcast failures) are modelled by `Option`, with `none` marking the raised
exception.
-/

noncomputable section

namespace SoundEq

open Real

/-- `EqualizerBand` from `audio_processor.py`: centre frequency (Hz),
gain (dB) and quality factor. -/
structure EqualizerBand where
  frequency : ℝ
  gain_db : ℝ
  q_factor : ℝ

/-- `EqualizerBand.get_filter_coefficients`: the peaking-EQ biquad
coefficients, returned as the pair of NumPy arrays
`(b, a) = ([b0/a0, b1/a0, b2/a0], [1, a1/a0, a2/a0])`. -/
def EqualizerBand.get_filter_coefficients (band : EqualizerBand)
    (sample_rate : ℝ) : (ℝ × ℝ × ℝ) × (ℝ × ℝ × ℝ) :=
  let gain_linear : ℝ := (10 : ℝ) ^ (band.gain_db / 20)
  let w0 : ℝ := 2 * π * band.frequency / sample_rate
  let alpha : ℝ := Real.sin w0 / (2 * band.q_factor)
  let cos_w0 : ℝ := Real.cos w0
  let b0 : ℝ := 1 + alpha * gain_linear
  let b1 : ℝ := -2 * cos_w0
  let b2 : ℝ := 1 - alpha * gain_linear
  let a0 : ℝ := 1 + alpha / gain_linear
  let a1 : ℝ := -2 * cos_w0
  let a2 : ℝ := 1 - alpha / gain_linear
  ((b0 / a0, b1 / a0, b2 / a0), (1, a1 / a0, a2 / a0))

/-- The spec's §4.1 coefficient formula, written as the spec states it:
`gainLinear = 10^(G/20)`, `w0 = 2π f0 / fs`, `alpha = sin(w0)/(2Q)`, raw
numerator/denominator coefficients, then normalisation by
`a0raw = 1 + alpha/gainLinear`.  Returned as the `(b, a)` pair with the
implicit leading `1` of `a` made explicit. -/
def specCoefficients (f0 G Q fs : ℝ) : (ℝ × ℝ × ℝ) × (ℝ × ℝ × ℝ) :=
  let gainLinear : ℝ := (10 : ℝ) ^ (G / 20)
  let w0 : ℝ := 2 * π * f0 / fs
  let alpha : ℝ := Real.sin w0 / (2 * Q)
  let cosW0 : ℝ := Real.cos w0
  let b0raw : ℝ := 1 + alpha * gainLinear
  let b1raw : ℝ := -2 * cosW0
  let b2raw : ℝ := 1 - alpha * gainLinear
  let a0raw : ℝ := 1 + alpha / gainLinear
  let a1raw : ℝ := -2 * cosW0
  let a2raw : ℝ := 1 - alpha / gainLinear
  ((b0raw / a0raw, b1raw / a0raw, b2raw / a0raw), (1, a1raw / a0raw, a2raw / a0raw))

/-- C1: on every band with `0 < f0 < fs/2`, `Q > 0` and sample rate `fs > 0`,
`get_filter_coefficients` returns exactly the tuple of the spec's §4.1
formula (the variant that multiplies/divides `alpha` by the linear gain
itself); in particular at `Band(1000, 6.0, 1.0)`, `fs = 44100` it reproduces
that formula's tuple exactly, hence to any decimal precision. -/
theorem get_filter_coefficients_eq_spec (f0 G Q fs : ℝ)
    (hf0 : 0 < f0) (hfnyq : f0 < fs / 2) (hQ : 0 < Q) (hfs : 0 < fs) :
    EqualizerBand.get_filter_coefficients ⟨f0, G, Q⟩ fs = specCoefficients f0 G Q fs := by
  rfl

/-- C1 witness: the golden-value band `Band(frequency=1000, gain_db=6.0,
q_factor=1.0)` at `fs = 44100` satisfies the domain hypotheses and reproduces
the spec formula's tuple. -/
theorem get_filter_coefficients_eq_spec_witness :
    (0 : ℝ) < 1000 ∧ (1000 : ℝ) < 44100 / 2 ∧ (0 : ℝ) < 1 ∧ (0 : ℝ) < 44100 ∧
      EqualizerBand.get_filter_coefficients ⟨1000, 6, 1⟩ 44100 =
        specCoefficients 1000 6 1 44100 :=
  ⟨by norm_num, by norm_num, by norm_num, by norm_num,
    get_filter_coefficients_eq_spec 1000 6 1 44100 (by norm_num) (by norm_num)
      (by norm_num) (by norm_num)⟩

/-- C4: a band with `gain_db = 0` yields `b` and `a` coefficient vectors that
are elementwise exactly equal (`gainLinear = 1`, so `b0raw = a0raw` and
`b2raw = a2raw`), for every valid `0 < f0 < fs/2`, `Q > 0`, `fs > 0`: the
filter is an exact identity. -/
theorem zero_gain_coefficients_identity (f0 Q fs : ℝ)
    (hf0 : 0 < f0) (hfnyq : f0 < fs / 2) (hQ : 0 < Q) (hfs : 0 < fs) :
    (EqualizerBand.get_filter_coefficients ⟨f0, 0, Q⟩ fs).1 =
      (EqualizerBand.get_filter_coefficients ⟨f0, 0, Q⟩ fs).2 := by
  have hπ : (0 : ℝ) < π := Real.pi_pos
  have hw0 : 0 < 2 * π * f0 / fs := by positivity
  have hw0lt : 2 * π * f0 / fs < π := by
    rw [div_lt_iff hfs]
    have h2 : 2 * f0 < fs := by linarith
    calc 2 * π * f0 = π * (2 * f0) := by ring
    _ < π * fs := (mul_lt_mul_left hπ).mpr h2
  have hsin : 0 < Real.sin (2 * π * f0 / fs) :=
    Real.sin_pos_of_pos_of_lt_pi hw0 hw0lt
  have ha0 : 1 + Real.sin (2 * π * f0 / fs) / (2 * Q) ≠ 0 := by positivity
  have hgl : (10 : ℝ) ^ ((0 : ℝ) / 20) = 1 := by
    norm_num
  simp only [EqualizerBand.get_filter_coefficients, hgl, mul_one, div_one]
  exact congrArg (fun t => (t, -2 * Real.cos (2 * π * f0 / fs) /
      (1 + Real.sin (2 * π * f0 / fs) / (2 * Q)),
      (1 - Real.sin (2 * π * f0 / fs) / (2 * Q)) /
        (1 + Real.sin (2 * π * f0 / fs) / (2 * Q)))) (div_self ha0)

/-- C4 witness: the hypotheses hold at `f0 = 1000`, `Q = 1`, `fs = 44100`, and
there the zero-gain band's `b` and `a` vectors coincide. -/
theorem zero_gain_coefficients_identity_witness :
    (0 : ℝ) < 1000 ∧ (1000 : ℝ) < 44100 / 2 ∧ (0 : ℝ) < 1 ∧ (0 : ℝ) < 44100 ∧
      (EqualizerBand.get_filter_coefficients ⟨1000, 0, 1⟩ 44100).1 =
        (EqualizerBand.get_filter_coefficients ⟨1000, 0, 1⟩ 44100).2 :=
  ⟨by norm_num, by norm_num, by norm_num, by norm_num,
    zero_gain_coefficients_identity 1000 1 44100 (by norm_num) (by norm_num)
      (by norm_num) (by norm_num)⟩

/-- SciPy `signal.lfilter` specialised to a biquad (three `b` and three `a`
taps, already normalised by `a0`): the transposed direct-form-II recurrence
on an explicit two-tap delay-line state. -/
def lfilterDF2T (b0 b1 b2 a1 a2 : ℝ) : List ℝ → ℝ × ℝ → List ℝ × (ℝ × ℝ)
  | [], z => ([], z)
  | x :: xs, z =>
    let y := b0 * x + z.1
    let z1 := b1 * x + z.2 - a1 * y
    let z2 := b2 * x - a2 * y
    let r := lfilterDF2T b0 b1 b2 a1 a2 xs (z1, z2)
    (y :: r.1, r.2)

/-- `scipy.signal.lfilter(b, a, x, zi=zi)` for biquad coefficient arrays:
SciPy normalises both arrays by `a[0]` (the chain always passes `a[0] = 1`),
runs the transposed direct-form-II recurrence from `zi`, and returns the
output block together with the final state `zf`. -/
def lfilter (b a : ℝ × ℝ × ℝ) (x : List ℝ) (zi : ℝ × ℝ) : List ℝ × (ℝ × ℝ) :=
  lfilterDF2T (b.1 / a.1) (b.2.1 / a.1) (b.2.2 / a.1) (a.2.1 / a.1) (a.2.2 / a.1) x zi

/-- `scipy.signal.lfilter_zi(b, a)` in the biquad case: after normalising by
`a[0]` it solves `(I - Companion(a)ᵀ) · zi = B` with `B = b[1:] - a[1:]·b[0]`;
for this 2×2 system the solution is `zi0 = (B0 + B1)/(1 + a1 + a2)` and
`zi1 = B1 - a2·zi0`. -/
def lfilter_zi (b a : ℝ × ℝ × ℝ) : ℝ × ℝ :=
  let b0 := b.1 / a.1
  let b1 := b.2.1 / a.1
  let b2 := b.2.2 / a.1
  let a1 := a.2.1 / a.1
  let a2 := a.2.2 / a.1
  let B0 := b1 - a1 * b0
  let B1 := b2 - a2 * b0
  let zi0 := (B0 + B1) / (1 + a1 + a2)
  (zi0, B1 - a2 * zi0)

/-- `AudioProcessor`: sample rate, band list, and the per-band filter states
(`none` = Uninitialized, `some` = Active with the biquad's two-tap state),
index-aligned with the bands. -/
structure AudioProcessor where
  sample_rate : ℝ
  bands : List EqualizerBand
  filter_states : List (Option (ℝ × ℝ))

/-- `AudioProcessor.__init__(sample_rate)`: empty band and state lists. -/
def AudioProcessor.init (sample_rate : ℝ) : AudioProcessor :=
  ⟨sample_rate, [], []⟩

/-- `AudioProcessor.add_band`: append a band and an Uninitialized state. -/
def AudioProcessor.add_band (p : AudioProcessor)
    (frequency gain_db q_factor : ℝ) : AudioProcessor :=
  { p with bands := p.bands ++ [⟨frequency, gain_db, q_factor⟩],
           filter_states := p.filter_states ++ [none] }

/-- `AudioProcessor.clear_bands`: remove all bands and all states. -/
def AudioProcessor.clear_bands (p : AudioProcessor) : AudioProcessor :=
  { p with bands := [], filter_states := [] }

/-- `AudioProcessor.reset_states`: `filter_states = [None] * len(bands)`. -/
def AudioProcessor.reset_states (p : AudioProcessor) : AudioProcessor :=
  { p with filter_states := List.replicate p.bands.length none }

/-- One iteration of the band loop in `process_block`: recompute the band's
coefficients; on an Uninitialized state derive
`zi = lfilter_zi(b, a) * processed[0]` (where `processed[0]` raises
`IndexError` on an empty block, modelled as `none`), on an Active state use
the stored state; run the filter and return the output block with the
trailing state. -/
def applyBand (sample_rate : ℝ) (band : EqualizerBand) (st : Option (ℝ × ℝ))
    (x : List ℝ) : Option (List ℝ × (ℝ × ℝ)) :=
  let ba := band.get_filter_coefficients sample_rate
  match st with
  | some z => some (lfilter ba.1 ba.2 x z)
  | none =>
    match x with
    | [] => none
    | x0 :: _ =>
      let zi := lfilter_zi ba.1 ba.2
      some (lfilter ba.1 ba.2 x (zi.1 * x0, zi.2 * x0))

/-- The `for i, band in enumerate(self.bands)` loop of `process_block`: each
band reads `filter_states[i]` (an exhausted state list is the `IndexError`
case) and writes back an Active state; each band's output feeds the next
band.  A raised exception anywhere aborts the call (`none`); no claim below
observes the partially written in-place states of an aborted call. -/
def runBands (sample_rate : ℝ) :
    List EqualizerBand → List (Option (ℝ × ℝ)) → List ℝ →
      Option (List ℝ × List (Option (ℝ × ℝ)))
  | [], sts, x => some (x, sts)
  | _ :: _, [], _ => none
  | band :: bs, st :: sts, x =>
    match applyBand sample_rate band st x with
    | none => none
    | some (y, z) =>
      match runBands sample_rate bs sts y with
      | none => none
      | some (out, sts') => some (out, some z :: sts')

/-- `AudioProcessor.process_block`: with no bands the input block is returned
unmodified; otherwise the bands are applied sequentially, the updated states
are stored on the processor, and the final cascaded block is returned. -/
def AudioProcessor.process_block (p : AudioProcessor) (x : List ℝ) :
    Option (List ℝ × AudioProcessor) :=
  if p.bands.length = 0 then some (x, p)
  else
    match runBands p.sample_rate p.bands p.filter_states x with
    | none => none
    | some (y, sts) => some (y, { p with filter_states := sts })

/-- C2: contrary to the spec's error-handling design, a length-0 block is not
always accepted: on a chain with one band whose state is Uninitialized,
`process_block` evaluates `processed[0]` on the empty block and raises
`IndexError` (modelled as `none`) instead of returning a length-0 block. -/
theorem process_block_empty_block_uninitialized_raises :
    AudioProcessor.process_block ⟨44100, [⟨1000, 6, 1⟩], [none]⟩ [] = none := by
  rfl

theorem lfilterDF2T_append (b0 b1 b2 a1 a2 : ℝ) (x1 x2 : List ℝ) (z : ℝ × ℝ) :
    lfilterDF2T b0 b1 b2 a1 a2 (x1 ++ x2) z =
      ((lfilterDF2T b0 b1 b2 a1 a2 x1 z).1 ++
        (lfilterDF2T b0 b1 b2 a1 a2 x2 (lfilterDF2T b0 b1 b2 a1 a2 x1 z).2).1,
       (lfilterDF2T b0 b1 b2 a1 a2 x2 (lfilterDF2T b0 b1 b2 a1 a2 x1 z).2).2) := by
  induction x1 generalizing z with
  | nil => simp [lfilterDF2T]
  | cons x xs ih => simp [lfilterDF2T, ih]

theorem lfilterDF2T_length (b0 b1 b2 a1 a2 : ℝ) (x : List ℝ) (z : ℝ × ℝ) :
    (lfilterDF2T b0 b1 b2 a1 a2 x z).1.length = x.length := by
  induction x generalizing z with
  | nil => rfl
  | cons x xs ih => simp [lfilterDF2T, ih]

theorem lfilter_append (b a : ℝ × ℝ × ℝ) (x1 x2 : List ℝ) (z : ℝ × ℝ) :
    lfilter b a (x1 ++ x2) z =
      ((lfilter b a x1 z).1 ++ (lfilter b a x2 (lfilter b a x1 z).2).1,
       (lfilter b a x2 (lfilter b a x1 z).2).2) :=
  lfilterDF2T_append _ _ _ _ _ x1 x2 z

theorem lfilter_length (b a : ℝ × ℝ × ℝ) (x : List ℝ) (z : ℝ × ℝ) :
    (lfilter b a x z).1.length = x.length :=
  lfilterDF2T_length _ _ _ _ _ x z

/-- Splitting one band's work: on a nonempty first sub-block, running the
band on the two sub-blocks in sequence (the second starting from the stored
trailing state) agrees with one run over the concatenation, because the
Uninitialized-state initial condition is derived from the same leading
sample either way. -/
theorem applyBand_split (sr : ℝ) (band : EqualizerBand) (st : Option (ℝ × ℝ))
    (x1 x2 : List ℝ) (hx : x1 ≠ []) :
    ∃ y1 z1 y2 z2,
      applyBand sr band st x1 = some (y1, z1) ∧
      applyBand sr band (some z1) x2 = some (y2, z2) ∧
      applyBand sr band st (x1 ++ x2) = some (y1 ++ y2, z2) ∧
      y1.length = x1.length := by
  obtain ⟨x0, xt, rfl⟩ := List.exists_cons_of_ne_nil hx
  cases st with
  | some z =>
    simp only [applyBand, List.cons_append]
    refine ⟨_, _, _, _, rfl, rfl, ?_, ?_⟩
    · rw [← List.cons_append, lfilter_append]
      rfl
    · simp [lfilterDF2T_length]
  | none =>
    simp only [applyBand, List.cons_append]
    refine ⟨_, _, _, _, rfl, rfl, ?_, ?_⟩
    · rw [← List.cons_append, lfilter_append]
      rfl
    · simp [lfilterDF2T_length]

/-- Splitting the whole band loop across two consecutive sub-blocks, for
aligned state lists and a nonempty first sub-block. -/
theorem runBands_split (sr : ℝ) (bs : List EqualizerBand) :
    ∀ (sts : List (Option (ℝ × ℝ))) (x1 x2 : List ℝ),
      sts.length = bs.length → x1 ≠ [] →
      ∃ y1 sts1 y2 sts2,
        runBands sr bs sts x1 = some (y1, sts1) ∧
        runBands sr bs sts1 x2 = some (y2, sts2) ∧
        runBands sr bs sts (x1 ++ x2) = some (y1 ++ y2, sts2) ∧
        y1.length = x1.length := by
  induction bs with
  | nil =>
    intro sts x1 x2 _ _
    exact ⟨x1, sts, x2, sts, rfl, rfl, rfl, rfl⟩
  | cons band bs' ih =>
    intro sts x1 x2 hlen hx
    cases sts with
    | nil => simp at hlen
    | cons st sts' =>
      have hlen' : sts'.length = bs'.length := by simpa using hlen
      obtain ⟨y1b, z1, y2b, z2, h1, h2, h3, hlen1⟩ :=
        applyBand_split sr band st x1 x2 hx
      have hy1b : y1b ≠ [] := by
        intro hnil
        apply hx
        apply List.length_eq_zero.mp
        rw [← hlen1, hnil]
        rfl
      obtain ⟨Y1, S1, Y2, S2, H1, H2, H3, HL⟩ := ih sts' y1b y2b hlen' hy1b
      refine ⟨Y1, some z1 :: S1, Y2, some z2 :: S2, ?_, ?_, ?_, ?_⟩
      · simp [runBands, h1, H1]
      · simp [runBands, h2, H2]
      · simp [runBands, h3, H3]
      · rw [HL, hlen1]

/-- C3 (amended: the first sub-block must be nonempty, since a fresh band's
initial condition reads the leading sample): streaming continuity — for an
aligned chain with at least one band, processing two consecutive sub-blocks
through the same chain instance, carrying the stored filter states, produces
exactly the concatenation of what one call on the whole signal produces,
with identical final states; the first-sample initial condition is applied
only once, at the start of the stream. -/
theorem process_block_streaming_continuity (p : AudioProcessor) (x1 x2 : List ℝ)
    (hbands : p.bands ≠ []) (halign : p.filter_states.length = p.bands.length)
    (hx1 : x1 ≠ []) :
    ∃ y1 p1 y2 p2,
      p.process_block x1 = some (y1, p1) ∧
      p1.process_block x2 = some (y2, p2) ∧
      p.process_block (x1 ++ x2) = some (y1 ++ y2, p2) := by
  obtain ⟨Y1, S1, Y2, S2, H1, H2, H3, _⟩ :=
    runBands_split p.sample_rate p.bands p.filter_states x1 x2 halign hx1
  have hblen : ¬p.bands.length = 0 := fun h => hbands (List.length_eq_zero.mp h)
  refine ⟨Y1, { p with filter_states := S1 }, Y2, { p with filter_states := S2 },
    ?_, ?_, ?_⟩
  · simp [AudioProcessor.process_block, hblen, H1]
  · simp [AudioProcessor.process_block, hblen, H2]
  · simp [AudioProcessor.process_block, hblen, H3]

/-- C3 witness: a fresh one-band chain, the signal `[1, 0]` split as
`[1] ++ [0]`, with every hypothesis discharged concretely. -/
theorem process_block_streaming_continuity_witness :
    ∃ y1 p1 y2 p2,
      AudioProcessor.process_block ⟨44100, [⟨1000, 6, 1⟩], [none]⟩ [1] = some (y1, p1) ∧
      p1.process_block [0] = some (y2, p2) ∧
      AudioProcessor.process_block ⟨44100, [⟨1000, 6, 1⟩], [none]⟩ ([1] ++ [0]) =
        some (y1 ++ y2, p2) :=
  process_block_streaming_continuity ⟨44100, [⟨1000, 6, 1⟩], [none]⟩ [1] [0]
    (List.cons_ne_nil _ _) rfl (List.cons_ne_nil _ _)

/-- C3 counterexample: the claim quantifies over every split, but on a fresh
one-band chain the split `[] ++ [1]` of the signal `[1]` already fails at the
first call — `process_block` on the empty first sub-block raises `IndexError`
(modelled as `none`) instead of contributing the first half of the stream. -/
theorem process_block_empty_first_subblock_fails :
    AudioProcessor.process_block ⟨48000, [⟨100, 3, 1⟩], [none]⟩ [] = none := by
  rfl

/-- `np.max(np.abs(block))`: the largest absolute sample value of a nonempty
block.  All entries of the mapped list are nonnegative, so the fold with base
`0` equals the true maximum; NumPy's `ValueError` on an empty block is
handled at the caller. -/
def npMaxAbs (x : List ℝ) : ℝ :=
  (x.map (fun v => |v|)).foldr max 0

theorem npMaxAbs_cons (v : ℝ) (xs : List ℝ) :
    npMaxAbs (v :: xs) = max |v| (npMaxAbs xs) := rfl

theorem npMaxAbs_nonneg (x : List ℝ) : 0 ≤ npMaxAbs x := by
  induction x with
  | nil => simp [npMaxAbs]
  | cons v xs ih =>
    rw [npMaxAbs_cons]
    exact le_max_of_le_right ih

theorem npMaxAbs_map_mul (x : List ℝ) (s : ℝ) (hs : 0 ≤ s) :
    npMaxAbs (x.map (fun v => v * s)) = npMaxAbs x * s := by
  induction x with
  | nil => simp [npMaxAbs]
  | cons v xs ih =>
    rw [List.map_cons, npMaxAbs_cons, npMaxAbs_cons, ih, abs_mul,
      abs_of_nonneg hs, max_mul_of_nonneg _ _ hs]

/-- `normalize_audio(audio_data, target_level)`: find the peak
`np.max(np.abs(audio_data))` (a `ValueError` on an empty block, modelled as
`none`); a zero peak returns the block unchanged; otherwise every sample is
scaled by the single scalar `10^(target_level/20) / peak`. -/
def normalize_audio (x : List ℝ) (target_level : ℝ) : Option (List ℝ) :=
  match x with
  | [] => none
  | v :: vs =>
    if npMaxAbs (v :: vs) = 0 then some (v :: vs)
    else
      some ((v :: vs).map
        (fun u => u * ((10 : ℝ) ^ (target_level / 20) / npMaxAbs (v :: vs))))

/-- C5 counterexample: on the empty block, `normalize_audio` raises
(`np.max` of an empty array is a `ValueError`, modelled as `none`) rather
than returning a block, so the claim's universal quantification over every
block fails. -/
theorem normalize_audio_empty_raises : normalize_audio [] (-3) = none := by
  rfl

/-- C5 (amended: the block must be nonempty): if the peak is `0` the block is
returned unchanged, and otherwise every sample is multiplied by the single
scalar `10^(targetDb/20)/peak` and the output's peak is exactly
`10^(targetDb/20)`. -/
theorem normalize_audio_spec (x : List ℝ) (t : ℝ) (hx : x ≠ []) :
    ∃ y, normalize_audio x t = some y ∧
      (npMaxAbs x = 0 → y = x) ∧
      (npMaxAbs x ≠ 0 →
        y = x.map (fun v => v * ((10 : ℝ) ^ (t / 20) / npMaxAbs x)) ∧
        npMaxAbs y = (10 : ℝ) ^ (t / 20)) := by
  obtain ⟨x0, xt, rfl⟩ := List.exists_cons_of_ne_nil hx
  by_cases hp : npMaxAbs (x0 :: xt) = 0
  · refine ⟨x0 :: xt, ?_, fun _ => rfl, fun hne => absurd hp hne⟩
    simp [normalize_audio, hp]
  · have hpos : 0 < npMaxAbs (x0 :: xt) :=
      lt_of_le_of_ne (npMaxAbs_nonneg _) (Ne.symm hp)
    have hT : (0 : ℝ) < (10 : ℝ) ^ (t / 20) :=
      Real.rpow_pos_of_pos (by norm_num) _
    refine ⟨(x0 :: xt).map (fun v => v * ((10 : ℝ) ^ (t / 20) / npMaxAbs (x0 :: xt))),
      ?_, fun h => absurd h hp, fun _ => ⟨rfl, ?_⟩⟩
    · simp [normalize_audio, hp]
    · rw [npMaxAbs_map_mul _ _ (le_of_lt (div_pos hT hpos))]
      rw [mul_comm, div_mul_cancel₀ _ hp]

/-- C5 witness: the one-sample block `[1]` with target `-3` dB, the
nonemptiness hypothesis discharged concretely. -/
theorem normalize_audio_spec_witness :
    ∃ y, normalize_audio [(1 : ℝ)] (-3) = some y ∧
      (npMaxAbs [(1 : ℝ)] = 0 → y = [(1 : ℝ)]) ∧
      (npMaxAbs [(1 : ℝ)] ≠ 0 →
        y = [(1 : ℝ)].map (fun v => v * ((10 : ℝ) ^ ((-3 : ℝ) / 20) / npMaxAbs [(1 : ℝ)])) ∧
        npMaxAbs y = (10 : ℝ) ^ ((-3 : ℝ) / 20)) :=
  normalize_audio_spec [1] (-3) (List.cons_ne_nil _ _)

/-- `np.linspace(a, b, n)`: `n` evenly spaced values from `a` to `b`
inclusive; for `n = 1` NumPy returns the single value `a`. -/
def linspace (a b : ℝ) (n : ℕ) : List ℝ :=
  if n = 1 then [a]
  else (List.range n).map (fun (i : ℕ) => a + (b - a) * (i : ℝ) / ((n : ℝ) - 1))

theorem linspace_length (a b : ℝ) (n : ℕ) : (linspace a b n).length = n := by
  by_cases h : n = 1
  · subst h
    simp [linspace]
  · simp only [linspace, if_neg h, List.length_map, List.length_range]

/-- The value of the `i`-th point of an `n`-point linear ramp from `a` to
`b`, as NumPy computes it (`a` itself when `n = 1`). -/
def rampVal (a b : ℝ) (n i : ℕ) : ℝ :=
  if n = 1 then a else a + (b - a) * (i : ℝ) / ((n : ℝ) - 1)

theorem linspace_getD (a b : ℝ) (n i : ℕ) (h : i < n) :
    (linspace a b n).getD i 0 = rampVal a b n i := by
  by_cases h1 : n = 1
  · subst h1
    have hi0 : i = 0 := by omega
    subst hi0
    simp [linspace, rampVal]
  · rw [List.getD_eq_getElem _ _ (by rw [linspace_length]; exact h)]
    simp only [linspace, rampVal, if_neg h1]
    rw [List.getElem_map, List.getElem_range]

theorem length_mul_front (x f : List ℝ) (k : ℕ) (hk : k = f.length)
    (hf : k ≤ x.length) :
    (List.zipWith (· * ·) (x.take k) f ++ x.drop k).length = x.length := by
  subst hk
  simp [List.length_zipWith]
  omega

/-- `result[:len(f)] *= f` seen through indices: the slice-multiplied list
agrees with `x` beyond the prefix and carries the factor `f[i]` inside it. -/
theorem getD_mul_front (x f : List ℝ) (k : ℕ) (hk : k = f.length)
    (hf : k ≤ x.length) (i : ℕ) (hi : i < x.length) :
    (List.zipWith (· * ·) (x.take k) f ++ x.drop k).getD i 0 =
      x.getD i 0 * (if i < k then f.getD i 0 else 1) := by
  subst hk
  have hzlen : (List.zipWith (· * ·) (x.take f.length) f).length = f.length := by
    simp [List.length_zipWith]
    omega
  rw [List.getD_eq_getElem _ _ (by rw [length_mul_front x f f.length rfl hf]; exact hi)]
  by_cases hin : i < f.length
  · rw [List.getElem_append_left (by rw [hzlen]; exact hin)]
    rw [List.getElem_zipWith, List.getElem_take]
    rw [if_pos hin, List.getD_eq_getElem x 0 hi, List.getD_eq_getElem f 0 hin]
  · rw [List.getElem_append_right (by rw [hzlen]; omega)]
    rw [if_neg hin, mul_one]
    simp only [hzlen, List.getElem_drop]
    rw [List.getD_eq_getElem x 0 hi]
    simp only [show f.length + (i - f.length) = i from by omega]

theorem length_mul_tail (y f : List ℝ) (o : ℕ) (ho : o + f.length = y.length) :
    (y.take o ++ List.zipWith (· * ·) (y.drop o) f).length = y.length := by
  simp [List.length_zipWith]
  omega

/-- `result[-len(f):] *= f` seen through indices: the tail-multiplied list
agrees with `y` before the offset and carries the factor `f[i - o]` after
it. -/
theorem getD_mul_tail (y f : List ℝ) (o : ℕ) (ho : o + f.length = y.length)
    (i : ℕ) (hi : i < y.length) :
    (y.take o ++ List.zipWith (· * ·) (y.drop o) f).getD i 0 =
      y.getD i 0 * (if o ≤ i then f.getD (i - o) 0 else 1) := by
  have htlen : (y.take o).length = o := by simp; omega
  have hzlen : (List.zipWith (· * ·) (y.drop o) f).length = f.length := by
    simp [List.length_zipWith]
    omega
  rw [List.getD_eq_getElem _ _ (by rw [length_mul_tail y f o ho]; exact hi)]
  by_cases hio : i < o
  · rw [List.getElem_append_left (by rw [htlen]; exact hio)]
    rw [List.getElem_take, if_neg (by omega), mul_one, List.getD_eq_getElem y 0 hi]
  · rw [List.getElem_append_right (by rw [htlen]; omega)]
    simp only [htlen, List.getElem_zipWith, List.getElem_drop]
    rw [if_pos (by omega)]
    rw [List.getD_eq_getElem y 0 hi, List.getD_eq_getElem f 0 (by omega)]
    simp only [show o + (i - o) = i from by omega]

/-- `apply_fade(audio_data, fade_samples)`: copy the block, multiply the
first `min(fade_samples, len)` samples elementwise by `linspace(0, 1, ·)`,
and multiply the slice `result[-len(fade_out):]` elementwise by
`linspace(1, 0, ·)`.  When `len(fade_out) = 0` that slice degenerates to
`result[0:]`, the whole block, and the elementwise multiply by the empty
ramp is a NumPy broadcast `ValueError` on any nonempty block (modelled as
`none`). -/
def apply_fade (x : List ℝ) (fade_samples : ℕ) : Option (List ℝ) :=
  let L := x.length
  let fade_in := linspace 0 1 (min fade_samples L)
  let r1 := List.zipWith (· * ·) (x.take fade_in.length) fade_in ++ x.drop fade_in.length
  let fade_out := linspace 1 0 (min fade_samples L)
  if fade_out.length = 0 ∧ L ≠ 0 then none
  else
    some (r1.take (L - fade_out.length) ++
      List.zipWith (· * ·) (r1.drop (L - fade_out.length)) fade_out)

/-- C6 counterexample: the claim quantifies over every `fadeSamples`, but
`apply_fade([1.0], fade_samples=0)` raises (the fade-out slice `result[-0:]`
is the whole one-sample block and the elementwise multiply by the empty ramp
is a broadcast `ValueError`, modelled as `none`) instead of returning a
block. -/
theorem apply_fade_zero_fade_raises : apply_fade [(1 : ℝ)] 0 = none := by
  rfl

/-- C6 (amended: `fadeSamples ≥ 1`; `fadeSamples = 0` raises on any nonempty
block): `apply_fade` returns a new block of the same length in which sample
`i` is the input sample multiplied by the fade-in ramp factor (a linear ramp
from 0 to 1 over the first `min(fadeSamples, len)` samples) and by the
fade-out ramp factor (a linear ramp from 1 to 0 over the last
`min(fadeSamples, len)` samples); in the overlapped region both factors
multiply cumulatively, unclamped.  The input list itself is never changed —
the model is functional, mirroring `audio_data.copy()`. -/
theorem apply_fade_spec (x : List ℝ) (fade_samples : ℕ) (hfs : 1 ≤ fade_samples) :
    ∃ y, apply_fade x fade_samples = some y ∧ y.length = x.length ∧
      ∀ i, i < x.length →
        y.getD i 0 = x.getD i 0 *
          (if i < min fade_samples x.length
            then rampVal 0 1 (min fade_samples x.length) i else 1) *
          (if x.length - min fade_samples x.length ≤ i
            then rampVal 1 0 (min fade_samples x.length)
              (i - (x.length - min fade_samples x.length)) else 1) := by
  by_cases hL : x.length = 0
  · have hx : x = [] := List.length_eq_zero.mp hL
    subst hx
    refine ⟨[], ?_, rfl, by intro i hi; simp at hi⟩
    simp [apply_fade, linspace]
  · have hL0 : 0 < x.length := Nat.pos_of_ne_zero hL
    have hn : 1 ≤ min fade_samples x.length := le_min hfs hL0
    have hnle : min fade_samples x.length ≤ x.length := min_le_right _ _
    have hcond : ¬((min fade_samples x.length = 0) ∧ x.length ≠ 0) :=
      fun hc => by omega
    have hTlen :
        (List.zipWith (· * ·) (x.take (min fade_samples x.length))
            (linspace 0 1 (min fade_samples x.length)) ++
          x.drop (min fade_samples x.length)).length = x.length :=
      length_mul_front x _ _ (linspace_length 0 1 _).symm hnle
    have ho : (x.length - min fade_samples x.length) +
        (linspace 1 0 (min fade_samples x.length)).length =
        (List.zipWith (· * ·) (x.take (min fade_samples x.length))
            (linspace 0 1 (min fade_samples x.length)) ++
          x.drop (min fade_samples x.length)).length := by
      rw [linspace_length, hTlen]
      omega
    refine ⟨(List.zipWith (· * ·) (x.take (min fade_samples x.length))
          (linspace 0 1 (min fade_samples x.length)) ++
        x.drop (min fade_samples x.length)).take
          (x.length - min fade_samples x.length) ++
      List.zipWith (· * ·)
        ((List.zipWith (· * ·) (x.take (min fade_samples x.length))
            (linspace 0 1 (min fade_samples x.length)) ++
          x.drop (min fade_samples x.length)).drop
            (x.length - min fade_samples x.length))
        (linspace 1 0 (min fade_samples x.length)), ?_, ?_, ?_⟩
    · simp only [apply_fade, linspace_length]
      rw [if_neg hcond]
    · rw [length_mul_tail _ _ _ ho, hTlen]
    · intro i hi
      rw [getD_mul_tail _ _ _ ho i (by rw [hTlen]; exact hi)]
      rw [getD_mul_front x _ _ (linspace_length 0 1 _).symm hnle i hi]
      congr 1
      · congr 1
        by_cases hin : i < min fade_samples x.length
        · rw [if_pos hin, if_pos hin, linspace_getD _ _ _ _ hin]
        · rw [if_neg hin, if_neg hin]
      · by_cases hoi : x.length - min fade_samples x.length ≤ i
        · rw [if_pos hoi, if_pos hoi, linspace_getD _ _ _ _ (by omega)]
        · rw [if_neg hoi, if_neg hoi]

/-- C6 witness: a three-sample block with `fadeSamples = 2`, the hypothesis
`1 ≤ fadeSamples` discharged concretely. -/
theorem apply_fade_spec_witness :
    ∃ y, apply_fade [(1 : ℝ), 1, 1] 2 = some y ∧ y.length = [(1 : ℝ), 1, 1].length ∧
      ∀ i, i < [(1 : ℝ), 1, 1].length →
        y.getD i 0 = [(1 : ℝ), 1, 1].getD i 0 *
          (if i < min 2 [(1 : ℝ), 1, 1].length
            then rampVal 0 1 (min 2 [(1 : ℝ), 1, 1].length) i else 1) *
          (if [(1 : ℝ), 1, 1].length - min 2 [(1 : ℝ), 1, 1].length ≤ i
            then rampVal 1 0 (min 2 [(1 : ℝ), 1, 1].length)
              (i - ([(1 : ℝ), 1, 1].length - min 2 [(1 : ℝ), 1, 1].length)) else 1) :=
  apply_fade_spec [(1 : ℝ), 1, 1] 2 (by norm_num)

/-- `scipy.signal.freqz(b, a, worN=[f], fs)` at one grid frequency: the
biquad's complex transfer function
`(b0 + b1 e^{-jw} + b2 e^{-j2w}) / (a0 + a1 e^{-jw} + a2 e^{-j2w})` at
`w = 2π f / fs`. -/
def bandResponse (band : EqualizerBand) (sample_rate f : ℝ) : ℂ :=
  let ba := band.get_filter_coefficients sample_rate
  let w : ℝ := 2 * π * f / sample_rate
  let e1 : ℂ := Complex.exp (-(Complex.I * (w : ℂ)))
  ((ba.1.1 : ℂ) + (ba.1.2.1 : ℂ) * e1 + (ba.1.2.2 : ℂ) * e1 ^ 2) /
    ((ba.2.1 : ℂ) + (ba.2.2.1 : ℂ) * e1 + (ba.2.2.2 : ℂ) * e1 ^ 2)

/-- The default grid `np.logspace(1, log10(sample_rate/2), 1000)`: 1000
log-spaced points from 10 Hz to the Nyquist frequency. -/
def defaultGrid (sample_rate : ℝ) : List ℝ :=
  (List.range 1000).map (fun (i : ℕ) =>
    (10 : ℝ) ^ (1 + (Real.logb 10 (sample_rate / 2) - 1) * (i : ℝ) / 999))

/-- `AudioProcessor.get_frequency_response(frequencies=None)`: choose the
explicit grid or the default one, start from the flat response `1`, multiply
in each band's `freqz` response in band order, and return the grid with
magnitudes `20·log10|H|` and phases `np.angle(H)`; the method only reads the
processor, so the state component is returned as-is. -/
def AudioProcessor.get_frequency_response (p : AudioProcessor)
    (frequencies : Option (List ℝ)) : (List ℝ × List ℝ × List ℝ) × AudioProcessor :=
  let freqs := match frequencies with
    | none => defaultGrid p.sample_rate
    | some fr => fr
  let total : List ℂ := freqs.map (fun f =>
    p.bands.foldl (fun acc band => acc * bandResponse band p.sample_rate f) 1)
  let magnitude_db := total.map (fun h => 20 * Real.logb 10 (Complex.abs h))
  let phase := total.map Complex.arg
  ((freqs, magnitude_db, phase), p)

/-- C9: `get_frequency_response` is a pure query: for every processor state
and every explicit-or-default frequency grid it leaves the processor's
sample rate, band list (hence every band's frequency, gain and Q) and
filter states exactly unchanged while returning the response triple. -/
theorem get_frequency_response_pure (p : AudioProcessor)
    (frequencies : Option (List ℝ)) :
    (p.get_frequency_response frequencies).2.sample_rate = p.sample_rate ∧
    (p.get_frequency_response frequencies).2.bands = p.bands ∧
    (p.get_frequency_response frequencies).2.filter_states = p.filter_states :=
  ⟨rfl, rfl, rfl⟩

/-- C10: `add_band` only appends: the sample rate is unchanged, the previous
band list and the previous state list (Active delay-line values included)
survive exactly as the prefixes of the new lists, and exactly one band and
one Uninitialized state are appended at the end. -/
theorem add_band_appends_only (p : AudioProcessor)
    (frequency gain_db q_factor : ℝ) :
    (p.add_band frequency gain_db q_factor).sample_rate = p.sample_rate ∧
    (p.add_band frequency gain_db q_factor).bands.take p.bands.length = p.bands ∧
    (p.add_band frequency gain_db q_factor).filter_states.take
      p.filter_states.length = p.filter_states ∧
    (p.add_band frequency gain_db q_factor).bands =
      p.bands ++ [⟨frequency, gain_db, q_factor⟩] ∧
    (p.add_band frequency gain_db q_factor).filter_states =
      p.filter_states ++ [none] :=
  ⟨rfl, List.take_left _ _, List.take_left _ _, rfl, rfl⟩

/-- The processor states reachable through the public operations of
`AudioProcessor`. -/
inductive Reachable : AudioProcessor → Prop
  | init (sample_rate : ℝ) : Reachable (AudioProcessor.init sample_rate)
  | add_band {p : AudioProcessor} (frequency gain_db q_factor : ℝ) :
      Reachable p → Reachable (p.add_band frequency gain_db q_factor)
  | clear_bands {p : AudioProcessor} : Reachable p → Reachable p.clear_bands
  | reset_states {p : AudioProcessor} : Reachable p → Reachable p.reset_states
  | process_block {p : AudioProcessor} {x y : List ℝ} {q : AudioProcessor} :
      Reachable p → p.process_block x = some (y, q) → Reachable q

theorem runBands_states_length (sr : ℝ) (bs : List EqualizerBand) :
    ∀ (sts : List (Option (ℝ × ℝ))) (x y : List ℝ)
      (sts2 : List (Option (ℝ × ℝ))),
      runBands sr bs sts x = some (y, sts2) → sts2.length = sts.length := by
  induction bs with
  | nil =>
    intro sts x y sts2 h
    simp only [runBands, Option.some.injEq, Prod.mk.injEq] at h
    rw [← h.2]
  | cons band bs' ih =>
    intro sts x y sts2 h
    cases sts with
    | nil => simp [runBands] at h
    | cons st sts' =>
      cases happ : applyBand sr band st x with
      | none => simp [runBands, happ] at h
      | some yz =>
        obtain ⟨yb, zb⟩ := yz
        cases hrb : runBands sr bs' sts' yb with
        | none => simp [runBands, happ, hrb] at h
        | some out2 =>
          obtain ⟨yout, stsout⟩ := out2
          simp only [runBands, happ, hrb, Option.some.injEq, Prod.mk.injEq] at h
          rw [← h.2]
          simp only [List.length_cons]
          rw [ih sts' yb yout stsout hrb]

theorem process_block_preserves (p : AudioProcessor) (x y : List ℝ)
    (q : AudioProcessor) (h : p.process_block x = some (y, q)) :
    q.bands = p.bands ∧ q.filter_states.length = p.filter_states.length := by
  unfold AudioProcessor.process_block at h
  by_cases hb : p.bands.length = 0
  · rw [if_pos hb] at h
    simp only [Option.some.injEq, Prod.mk.injEq] at h
    rw [← h.2]
    exact ⟨rfl, rfl⟩
  · rw [if_neg hb] at h
    cases hrb : runBands p.sample_rate p.bands p.filter_states x with
    | none => simp [hrb] at h
    | some out =>
      obtain ⟨yy, sts2⟩ := out
      simp only [hrb, Option.some.injEq, Prod.mk.injEq] at h
      rw [← h.2]
      exact ⟨rfl, runBands_states_length p.sample_rate p.bands
        p.filter_states x yy sts2 hrb⟩

/-- C8: the chain-alignment invariant `len(bands) == len(filter_states)`
holds for every reachable processor state: it holds at construction, and
`add_band` (one band, one Uninitialized state), `clear_bands` (both
emptied), `reset_states` (`len(bands)` Uninitialized states) and a
successful `process_block` (bands untouched, states rewritten one-for-one)
all preserve it. -/
theorem reachable_bands_states_aligned (p : AudioProcessor)
    (h : Reachable p) : p.bands.length = p.filter_states.length := by
  induction h with
  | init sr => rfl
  | add_band f g q hp ih => simp [AudioProcessor.add_band, ih]
  | clear_bands hp ih => rfl
  | reset_states hp ih => simp [AudioProcessor.reset_states]
  | process_block hp hstep ih =>
    obtain ⟨hb, hl⟩ := process_block_preserves _ _ _ _ hstep
    rw [hb, hl]
    exact ih

/-- C8 witness: a processor built by construction plus one `add_band` is
reachable and satisfies the alignment invariant. -/
theorem reachable_bands_states_aligned_witness :
    ((AudioProcessor.init 44100).add_band 1000 6 1).bands.length =
      ((AudioProcessor.init 44100).add_band 1000 6 1).filter_states.length :=
  reachable_bands_states_aligned _
    (Reachable.add_band 1000 6 1 (Reachable.init 44100))

/-- A configured band record from the JSON configuration. -/
structure ConfigBand where
  frequency : ℝ
  gain_db : ℝ
  q_factor : ℝ

/-- A preset record: a description and an ordered gain list. -/
structure Preset where
  description : String
  gains : List ℝ

/-- The slice of `SoundEqualizer`'s state that `apply_preset` touches: the
parsed configuration (band records and presets) and the live processor. -/
structure SoundEqualizer where
  config_bands : List ConfigBand
  presets : List (String × Preset)
  processor : AudioProcessor

/-- `SoundEqualizer.apply_preset(preset_name)`: an unknown preset name
returns `False` with no mutation; a gain count differing from the configured
band count returns `False` with no mutation; otherwise the live chain is
cleared and every configured band re-added with the preset's gain, returning
`True`. -/
def SoundEqualizer.apply_preset (s : SoundEqualizer) (preset_name : String) :
    Bool × SoundEqualizer :=
  match s.presets.lookup preset_name with
  | none => (false, s)
  | some preset =>
    if preset.gains.length ≠ s.config_bands.length then (false, s)
    else
      let newProc :=
        (s.config_bands.zip preset.gains).foldl
          (fun proc bg => proc.add_band bg.1.frequency bg.2 bg.1.q_factor)
          s.processor.clear_bands
      (true, { s with processor := newProc })

/-- C7: a preset whose gain count differs from the number of configured
bands is rejected: `apply_preset` reports failure (`False`) and the
equalizer state — in particular the live chain's band list and filter
states — is returned exactly as it was, with no partial application. -/
theorem apply_preset_mismatch_no_mutation (s : SoundEqualizer) (nm : String)
    (preset : Preset) (hfind : s.presets.lookup nm = some preset)
    (hmis : preset.gains.length ≠ s.config_bands.length) :
    s.apply_preset nm = (false, s) := by
  simp [SoundEqualizer.apply_preset, hfind, hmis]

/-- C7 witness: a configuration with zero bands and a one-gain preset named
`flat`; the lookup and mismatch hypotheses are discharged concretely. -/
theorem apply_preset_mismatch_no_mutation_witness :
    SoundEqualizer.apply_preset
      ⟨[], [("flat", ⟨"flat response", [0]⟩)], AudioProcessor.init 44100⟩ "flat" =
      (false,
        ⟨[], [("flat", ⟨"flat response", [0]⟩)], AudioProcessor.init 44100⟩) :=
  apply_preset_mismatch_no_mutation _ "flat" ⟨"flat response", [0]⟩ (by rfl)
    (by norm_num)

end SoundEq
